import Mathlib

/-!
# B12.h : the `to_upper` helper and the `AsyncExecutor` bridge

A shallow embedding of `src/src/B12.h`:

* `to_upper` (lines 97-101), over the numeric value of a `char`;
* the body of `AsyncExecutor::_rest_callback` (lines 149-170), once for each of
  the two `if constexpr` instantiations, as the sequence of actions it performs
  after it has taken the lock;
* `operator()`, `wait()` and `_rest_callback` as threads of an interleaving
  transition system over the shared fields `_mutex`, `_cv`, `_complete`
  (lines 140-142, 188-214).
-/

set_option autoImplicit false
set_option linter.unusedTactic false
set_option linter.unreachableTactic false

namespace B12

/-! ## `to_upper` -/

/-- The lambda `to_upper` of lines 97-101 on the numeric value of the `char` it is
given by reference; the result is the value the referenced `char` holds afterwards.
`'a'` is 97, `'z'` is 122 and `'A' - 'a'` is `65 - 97`. In the only branch that
writes, the sum lies in 66..89, so narrowing it back to `char` changes nothing. -/
def to_upper (c : Int) : Int :=
  if c > 97 ∧ c < 122 then c + (65 - 97) else c

/-! ## D++ types used by the completion handler -/

/-- One entry of `dpp::error_info::errors`. -/
structure error_detail where
  object : String
  field : String
  code : String
  reason : String
deriving DecidableEq, Repr

/-- The error descriptor `dpp::error_info`: `code` is a `uint32_t`. -/
structure error_info where
  code : Nat
  message : String
  errors : List error_detail
deriving DecidableEq, Repr

/-- Number of values of a `uint32_t`. -/
def UINT32_RANGE : Nat := 4294967296

/-- The enumeration `dpp::http_error`, by the numeric value of the enumerator. The
enumerators of D++ are small and non-negative, whichever underlying type the
library version gives the enumeration. -/
abbrev http_error := Fin 4294967296

/-- The flat-shape result `dpp::http_request_completion_t`: the status field
`error` the handler inspects, next to the inline data of the response. -/
structure http_request_completion_t where
  error : http_error
  status : Nat
  body : String
deriving DecidableEq, Repr

/-- The variant `dpp::confirmable_t` as seen by `std::get<Arg>`: it either holds
the alternative `Arg` or one of the other alternatives. -/
inductive confirmable_t (Arg Other : Type) where
  | holds (a : Arg)
  | other (o : Other)
deriving DecidableEq, Repr

/-- The call `std::get<Arg>(v)`: the held `Arg`, or `none` where the C++ call throws
`std::bad_variant_access`. -/
def std_get {Arg Other : Type} : confirmable_t Arg Other → Option Arg
  | .holds a => some a
  | .other _ => none

/-- The tagged-shape result `dpp::confirmation_callback_t`, by what the handler
reads from it: the answers of `is_error()` and `get_error()` and the member
`value`. -/
structure confirmation_callback_t (Arg Other : Type) where
  is_error : Bool
  get_error : error_info
  value : confirmable_t Arg Other
deriving DecidableEq, Repr

/-- The conversion `static_cast<uint32_t>` of a non-negative integer. -/
def static_cast_uint32 (n : Nat) : Nat := n % UINT32_RANGE

/-- The call of `fmt::format` on line 164: the text `error code ` followed by the
decimal digits of the integer `n`. -/
def format_error_code (n : Nat) : String := "error code " ++ toString n

/-! ## The completion handler `_rest_callback` -/

/-- How a call of a `std::function` ends: it returns, or an exception leaves it. -/
inductive CallResult where
  | returns
  | throws
deriving DecidableEq, Repr

/-- The two callbacks `_on_success` and `_on_error` installed in a bridge, by how a
call of each ends on a given argument. What a callback does besides lies outside
the bridge. -/
structure Callbacks (Arg : Type) where
  on_success : Arg → CallResult
  on_error : error_info → CallResult

/-- What the handler does while it holds the lock. -/
inductive Action (Arg : Type) where
  | on_success (a : Arg)
  | on_error (e : error_info)
  | set_complete
  | notify_all
deriving DecidableEq, Repr

/-- Is the action a call of one of the two callbacks? -/
def Action.isCallback {Arg : Type} : Action Arg → Bool
  | .on_success _ => true
  | .on_error _ => true
  | _ => false

/-- Is the action the write `_complete = true`? -/
def Action.isSetComplete {Arg : Type} : Action Arg → Bool
  | .set_complete => true
  | _ => false

/-- One run of the handler body: the actions performed in order, and whether the
body returned or an exception left it. -/
structure HandlerRun (Arg : Type) where
  actions : List (Action Arg)
  outcome : CallResult
deriving DecidableEq, Repr

/-- Lines 168-169, the tail shared by both shapes: `_complete = true;` then
`_cv.notify_all();`, after which the lambda returns. -/
def finish {Arg : Type} : HandlerRun Arg :=
  ⟨[.set_complete, .notify_all], .returns⟩

/-- A callback call `a` that ends as `r`, followed by `rest` when it returns; an
exception skips the rest of the body. -/
def call_then {Arg : Type} (r : CallResult) (a : Action Arg) (rest : HandlerRun Arg) :
    HandlerRun Arg :=
  match r with
  | .returns => ⟨a :: rest.actions, rest.outcome⟩
  | .throws => ⟨[a], .throws⟩

/-- Body of `_rest_callback` for a `RestResult` derived from
`dpp::confirmation_callback_t` (lines 152-158, then 168-169). -/
def rest_callback_tagged {Arg Other : Type} (cb : Callbacks Arg)
    (result : confirmation_callback_t Arg Other) : HandlerRun Arg :=
  if result.is_error then
    call_then (cb.on_error result.get_error) (.on_error result.get_error) finish
  else
    match std_get result.value with
    | none => ⟨[], .throws⟩
    | some a => call_then (cb.on_success a) (.on_success a) finish

/-- Body of `_rest_callback` for a `RestResult` derived from
`dpp::http_request_completion_t` (lines 159-167, then 168-169). `h_success` is the
enumerator `dpp::h_success`; the success argument is the result itself. -/
def rest_callback_flat (h_success : http_error) (cb : Callbacks http_request_completion_t)
    (res : http_request_completion_t) : HandlerRun http_request_completion_t :=
  if res.error ≠ h_success then
    let e : error_info :=
      ⟨static_cast_uint32 res.error.val, format_error_code res.error.val, []⟩
    call_then (cb.on_error e) (.on_error e) finish
  else
    call_then (cb.on_success res) (.on_success res) finish

/-! ## The bridge as an interleaving transition system

Every call of `operator()`, of `wait()` (the destructor is a call of `wait()`) and
every run of `_rest_callback` is a thread of its own; a thread is named by its
index in the list of threads. A step is one access to the shared fields. -/

/-- Name of a thread: its index in `State.threads`. -/
abbrev Tid := Nat

/-- Where a thread stands in the member function it runs. `r` is the raw result
the remote call started by an `operator()` call will hand to the handler; `i` names
the `operator()` call whose operation a handler run completes. -/
inductive Pc (Arg R : Type) where
  /-- In `operator()`, line 192: about to construct the `scoped_lock`. -/
  | inv_start (r : R)
  /-- In `operator()`, line 193: lock held, about to evaluate `assert(_complete)`. -/
  | inv_assert (r : R)
  /-- In `operator()`, line 195: about to write `_complete = false`. -/
  | inv_clear (r : R)
  /-- In `operator()`, line 196: about to call the routine. -/
  | inv_call (r : R)
  /-- In `operator()`, line 197: the routine returned; about to return, which
  destroys the `scoped_lock`. -/
  | inv_return
  /-- In `wait()`, line 207: about to construct the `unique_lock`. -/
  | wait_start
  /-- In `wait()`, line 213: lock held, about to evaluate the predicate. -/
  | wait_check
  /-- In `wait()`, line 213: inside `_cv.wait`, lock released, blocked. -/
  | wait_blocked
  /-- In `wait()`, line 213: unblocked, about to take the lock again. -/
  | wait_reacquire
  /-- In `wait()`, line 214: the predicate held; about to return, which destroys the
  `unique_lock`. -/
  | wait_return
  /-- In `_rest_callback`, line 151: about to construct the `unique_lock`. -/
  | cb_start (i : Tid) (r : R)
  /-- In `_rest_callback`, lines 152-169: lock held, `todo` still to perform, then
  leave as `out`. -/
  | cb_body (i : Tid) (todo : List (Action Arg)) (out : CallResult)
  /-- The thread has left its function. -/
  | done
deriving DecidableEq, Repr

/-- Observable events, in the order they happen. -/
inductive Ev (Arg : Type) where
  /-- The `assert(_complete)` of the `operator()` call `t` failed. -/
  | assert_failed (t : Tid)
  /-- The `operator()` call `t` wrote `_complete = false`. -/
  | flag_cleared (t : Tid)
  /-- The `operator()` call `t` called its routine. -/
  | routine_called (t : Tid)
  /-- The `operator()` call `t` returned. -/
  | invoke_returned (t : Tid)
  /-- The handler of the `operator()` call `i` performed `a`. -/
  | handler (i : Tid) (a : Action Arg)
  /-- The handler of the `operator()` call `i` was left as `out`. -/
  | handler_left (i : Tid) (out : CallResult)
  /-- The `wait()` call `t` returned. -/
  | wait_returned (t : Tid)
deriving DecidableEq, Repr

/-- The bridge and the threads using it. -/
structure State (Arg R : Type) where
  /-- The field `_complete`. -/
  complete : Bool
  /-- The thread that owns `_mutex`, if any. -/
  mutex : Option Tid
  /-- Has a failed `assert` aborted the process? -/
  aborted : Bool
  threads : List (Pc Arg R)
  trace : List (Ev Arg)
deriving DecidableEq, Repr

/-- A freshly constructed bridge (line 142 initialises `_complete` to true) with
the given threads. -/
def fresh {Arg R : Type} (threads : List (Pc Arg R)) : State Arg R :=
  ⟨true, none, false, threads, []⟩

/-- A thread that is about to call `operator()` or `wait()`. -/
def Pc.isEntry {Arg R : Type} : Pc Arg R → Bool
  | .inv_start _ => true
  | .wait_start => true
  | _ => false

/-- Does a thread at this point own `_mutex`? -/
def Pc.holds {Arg R : Type} : Pc Arg R → Bool
  | .inv_assert _ => true
  | .inv_clear _ => true
  | .inv_call _ => true
  | .inv_return => true
  | .wait_check => true
  | .wait_return => true
  | .cb_body _ _ _ => true
  | _ => false

/-- Effect of `_cv.notify_all()` on one thread: a blocked waiter is unblocked. -/
def wake {Arg R : Type} : Pc Arg R → Pc Arg R
  | .wait_blocked => .wait_reacquire
  | pc => pc

/-- Effect of one handler action on the bridge. The callbacks run outside the
bridge's fields. -/
def perform {Arg R : Type} (s : State Arg R) : Action Arg → State Arg R
  | .set_complete => { s with complete := true }
  | .notify_all => { s with threads := s.threads.map wake }
  | _ => s

/-- One step of thread `t`, or `none` when `t` cannot move: there is no such
thread, it has finished, the process was aborted, or it needs `_mutex` and
another thread owns it. `handler` is the body of `_rest_callback`.

* `inv_assert`: `assert` is the macro of `<cassert>` with `NDEBUG` not defined: a
  false condition aborts the process.
* `inv_call`: the routine hands the request to the remote-call subsystem and
  returns; the subsystem runs `_rest_callback` once, on a thread of its own, which
  is a new thread here.
* `wait_check`, `wait_blocked`, `wait_reacquire`: `_cv.wait(lock, pred)` is
  `while (!pred()) wait(lock);`, and a blocked waiter may also wake spuriously.
* `cb_body`: the actions of the handler body are performed one at a time; when none
  is left the `unique_lock` is destroyed, by the return or by the exception. -/
def step {Arg R : Type} (handler : R → HandlerRun Arg) (s : State Arg R) (t : Tid) :
    Option (State Arg R) :=
  if s.aborted then none else
  match s.threads[t]? with
  | none => none
  | some (.inv_start r) =>
    if s.mutex = none then
      some { s with mutex := some t, threads := s.threads.set t (.inv_assert r) }
    else none
  | some (.inv_assert r) =>
    if s.complete then
      some { s with threads := s.threads.set t (.inv_clear r) }
    else
      some { s with aborted := true, trace := s.trace ++ [.assert_failed t] }
  | some (.inv_clear r) =>
    some { s with complete := false, threads := s.threads.set t (.inv_call r),
                  trace := s.trace ++ [.flag_cleared t] }
  | some (.inv_call r) =>
    some { s with threads := s.threads.set t .inv_return ++ [.cb_start t r],
                  trace := s.trace ++ [.routine_called t] }
  | some .inv_return =>
    some { s with mutex := none, threads := s.threads.set t .done,
                  trace := s.trace ++ [.invoke_returned t] }
  | some .wait_start =>
    if s.mutex = none then
      some { s with mutex := some t, threads := s.threads.set t .wait_check }
    else none
  | some .wait_check =>
    if s.complete then
      some { s with threads := s.threads.set t .wait_return }
    else
      some { s with mutex := none, threads := s.threads.set t .wait_blocked }
  | some .wait_blocked =>
    some { s with threads := s.threads.set t .wait_reacquire }
  | some .wait_reacquire =>
    if s.mutex = none then
      some { s with mutex := some t, threads := s.threads.set t .wait_check }
    else none
  | some .wait_return =>
    some { s with mutex := none, threads := s.threads.set t .done,
                  trace := s.trace ++ [.wait_returned t] }
  | some (.cb_start i r) =>
    if s.mutex = none then
      some { s with mutex := some t,
                    threads := s.threads.set t (.cb_body i (handler r).actions (handler r).outcome) }
    else none
  | some (.cb_body i (a :: todo) out) =>
    let s1 := perform s a
    some { s1 with threads := s1.threads.set t (.cb_body i todo out),
                   trace := s.trace ++ [.handler i a] }
  | some (.cb_body i [] out) =>
    some { s with mutex := none, threads := s.threads.set t .done,
                  trace := s.trace ++ [.handler_left i out] }
  | some .done => none

/-- Run a schedule: the listed threads take one step each, in order; a thread that
cannot move is passed over. -/
def run {Arg R : Type} (handler : R → HandlerRun Arg) (s : State Arg R) :
    List Tid → State Arg R
  | [] => s
  | t :: rest => run handler ((step handler s t).getD s) rest

/-- The states a fresh bridge can reach with threads that call `operator()` or
`wait()`. -/
def Reachable {Arg R : Type} (handler : R → HandlerRun Arg) (s : State Arg R) : Prop :=
  ∃ (threads : List (Pc Arg R)) (sched : List Tid),
    (∀ pc ∈ threads, pc.isEntry = true) ∧ s = run handler (fresh threads) sched

/-! ## Derived notions used in the statements -/

/-- How many callback calls (of `_on_success` or `_on_error`) a handler run makes. -/
def callbackCount {Arg : Type} (h : HandlerRun Arg) : Nat :=
  h.actions.countP Action.isCallback

/-- Callbacks over `Nat` that both return. -/
def quiet_callbacks : Callbacks Nat := ⟨fun _ => .returns, fun _ => .returns⟩

/-- Callbacks over `Nat` that both throw. -/
def throwing_callbacks : Callbacks Nat := ⟨fun _ => .throws, fun _ => .throws⟩

/-- A tagged result that is not an error and holds the `Nat` 7. -/
def tagged_ok : confirmation_callback_t Nat String := ⟨false, ⟨0, "", []⟩, .holds 7⟩

/-- A tagged result that is not an error and holds another alternative. -/
def tagged_other : confirmation_callback_t Nat String := ⟨false, ⟨0, "", []⟩, .other "confirmation"⟩

/-- A tagged result that is an error. -/
def tagged_err : confirmation_callback_t Nat String := ⟨true, ⟨50001, "Missing Access", []⟩, .other ""⟩

/-- Callbacks over flat results that both return. -/
def quiet_flat_callbacks : Callbacks http_request_completion_t :=
  ⟨fun _ => .returns, fun _ => .returns⟩

/-- A flat result with the failing status 3. -/
def flat_failed : http_request_completion_t := ⟨3, 0, ""⟩

/-- A flat result with status 0. -/
def flat_ok : http_request_completion_t := ⟨0, 200, "ok"⟩


/-! ## Transitions, invariant and contracts -/

/-- The threads after thread `t` moved to `q`, every thread was passed through `f`
and the threads `sp` were started. -/
def upd {Arg R : Type} (l : List (Pc Arg R)) (t : Nat) (q : Pc Arg R)
    (f : Pc Arg R → Pc Arg R) (sp : List (Pc Arg R)) : List (Pc Arg R) :=
  (l.map f).set t q ++ sp

/-- The transitions of `step`, one constructor for each. -/
inductive Step {Arg R : Type} (handler : R → HandlerRun Arg) (s : State Arg R) (t : Tid) :
    State Arg R → Prop where
  | inv_start (r : R) (hpc : s.threads[t]? = some (.inv_start r)) (hm : s.mutex = none) :
      Step handler s t
        ⟨s.complete, some t, s.aborted, upd s.threads t (.inv_assert r) id [], s.trace⟩
  | assert_ok (r : R) (hpc : s.threads[t]? = some (.inv_assert r)) (hc : s.complete = true) :
      Step handler s t
        ⟨s.complete, s.mutex, s.aborted, upd s.threads t (.inv_clear r) id [], s.trace⟩
  | assert_fail (r : R) (hpc : s.threads[t]? = some (.inv_assert r))
      (hc : s.complete = false) :
      Step handler s t
        ⟨s.complete, s.mutex, true, upd s.threads t (.inv_assert r) id [],
          s.trace ++ [.assert_failed t]⟩
  | inv_clear (r : R) (hpc : s.threads[t]? = some (.inv_clear r)) :
      Step handler s t
        ⟨false, s.mutex, s.aborted, upd s.threads t (.inv_call r) id [],
          s.trace ++ [.flag_cleared t]⟩
  | inv_call (r : R) (hpc : s.threads[t]? = some (.inv_call r)) :
      Step handler s t
        ⟨s.complete, s.mutex, s.aborted, upd s.threads t .inv_return id [.cb_start t r],
          s.trace ++ [.routine_called t]⟩
  | inv_return (hpc : s.threads[t]? = some .inv_return) :
      Step handler s t
        ⟨s.complete, none, s.aborted, upd s.threads t .done id [],
          s.trace ++ [.invoke_returned t]⟩
  | wait_start (hpc : s.threads[t]? = some .wait_start) (hm : s.mutex = none) :
      Step handler s t
        ⟨s.complete, some t, s.aborted, upd s.threads t .wait_check id [], s.trace⟩
  | wait_pass (hpc : s.threads[t]? = some .wait_check) (hc : s.complete = true) :
      Step handler s t
        ⟨s.complete, s.mutex, s.aborted, upd s.threads t .wait_return id [], s.trace⟩
  | wait_block (hpc : s.threads[t]? = some .wait_check) (hc : s.complete = false) :
      Step handler s t
        ⟨s.complete, none, s.aborted, upd s.threads t .wait_blocked id [], s.trace⟩
  | wait_wake (hpc : s.threads[t]? = some .wait_blocked) :
      Step handler s t
        ⟨s.complete, s.mutex, s.aborted, upd s.threads t .wait_reacquire id [], s.trace⟩
  | wait_reacquire (hpc : s.threads[t]? = some .wait_reacquire) (hm : s.mutex = none) :
      Step handler s t
        ⟨s.complete, some t, s.aborted, upd s.threads t .wait_check id [], s.trace⟩
  | wait_return (hpc : s.threads[t]? = some .wait_return) :
      Step handler s t
        ⟨s.complete, none, s.aborted, upd s.threads t .done id [],
          s.trace ++ [.wait_returned t]⟩
  | cb_start (i : Tid) (r : R) (hpc : s.threads[t]? = some (.cb_start i r))
      (hm : s.mutex = none) :
      Step handler s t
        ⟨s.complete, some t, s.aborted,
          upd s.threads t (.cb_body i (handler r).actions (handler r).outcome) id [], s.trace⟩
  | cb_callback (i : Tid) (a : Action Arg) (todo : List (Action Arg)) (out : CallResult)
      (hpc : s.threads[t]? = some (.cb_body i (a :: todo) out)) (ha : a.isCallback = true) :
      Step handler s t
        ⟨s.complete, s.mutex, s.aborted, upd s.threads t (.cb_body i todo out) id [],
          s.trace ++ [.handler i a]⟩
  | cb_set_complete (i : Tid) (todo : List (Action Arg)) (out : CallResult)
      (hpc : s.threads[t]? = some (.cb_body i (.set_complete :: todo) out)) :
      Step handler s t
        ⟨true, s.mutex, s.aborted, upd s.threads t (.cb_body i todo out) id [],
          s.trace ++ [.handler i .set_complete]⟩
  | cb_notify_all (i : Tid) (todo : List (Action Arg)) (out : CallResult)
      (hpc : s.threads[t]? = some (.cb_body i (.notify_all :: todo) out)) :
      Step handler s t
        ⟨s.complete, s.mutex, s.aborted, upd s.threads t (.cb_body i todo out) wake [],
          s.trace ++ [.handler i .notify_all]⟩
  | cb_leave (i : Tid) (out : CallResult)
      (hpc : s.threads[t]? = some (.cb_body i [] out)) :
      Step handler s t
        ⟨s.complete, none, s.aborted, upd s.threads t .done id [],
          s.trace ++ [.handler_left i out]⟩

/-- The `operator()` call whose operation thread `u`, standing at the given point,
has still to carry to its flag write: the call itself between clearing the flag and
calling the routine, and afterwards the handler run until it has written
`_complete = true`. -/
def pending {Arg R : Type} (u : Tid) : Pc Arg R → Option Tid
  | .inv_call _ => some u
  | .cb_start i _ => some i
  | .cb_body i todo _ => if todo.any Action.isSetComplete then some i else none
  | _ => none

/-- Does a thread at this point rely on having read `_complete` as true under the
lock? -/
def Pc.sure {Arg R : Type} : Pc Arg R → Bool
  | .inv_clear _ => true
  | .wait_return => true
  | _ => false

/-- The effect of one event on who has cleared the flag last without it having
been set again. -/
def trackStep {Arg : Type} (o : Option Tid) : Ev Arg → Option Tid
  | .flag_cleared i => some i
  | .handler _ .set_complete => none
  | _ => o

/-- After the events `tr`: the `operator()` call that cleared `_complete` last, if
no handler has set it again since; `none` when the flag is true. -/
def track {Arg : Type} (tr : List (Ev Arg)) : Option Tid :=
  tr.foldl trackStep none

/-- Going through the actions in order, a callback call is met before any write of
`_complete`. -/
def cbFirst {Arg : Type} : List (Action Arg) → Bool
  | [] => true
  | a :: rest => if a.isSetComplete then false else if a.isCallback then true else cbFirst rest

/-- A handler run writes `_complete` at most once, and only after a callback call. -/
def Shaped {Arg : Type} (h : HandlerRun Arg) : Prop :=
  h.actions.countP Action.isSetComplete ≤ 1 ∧ cbFirst h.actions = true

/-- The invariant of the transition system. -/
structure Inv {Arg R : Type} (s : State Arg R) : Prop where
  /-- Mutual exclusion: a thread inside a locked region owns `_mutex`. -/
  mutex : ∀ (u : Tid) (pc : Pc Arg R), s.threads[u]? = some pc → pc.holds = true → s.mutex = some u
  /-- A thread that read the flag as true under the lock still sees it true. -/
  sure : ∀ (u : Tid) (pc : Pc Arg R), s.threads[u]? = some pc → pc.sure = true → s.complete = true
  /-- The flag is true exactly when no cleared flag is left unset. -/
  flag : s.complete = true ↔ track s.trace = none
  /-- A pending thread works for the call that cleared the flag last. -/
  owner : ∀ (u : Tid) (pc : Pc Arg R) (j : Tid), s.threads[u]? = some pc → pending u pc = some j → track s.trace = some j
  /-- At most one thread is pending. -/
  unique : ∃ w : Tid, ∀ (u : Tid) (pc : Pc Arg R), s.threads[u]? = some pc → (pending u pc).isSome = true → u = w
  /-- What is left of a handler body. -/
  body : ∀ (u i : Tid) (todo : List (Action Arg)) (out : CallResult),
    s.threads[u]? = some (Pc.cb_body i todo out) →
    todo.countP Action.isSetComplete ≤ 1 ∧
    (cbFirst todo = true ∨ ∃ a, a.isCallback = true ∧ Ev.handler i a ∈ s.trace)
  /-- Every call that cleared the flag has seen its handler set it, but the last. -/
  settled : ∀ i : Tid, Ev.flag_cleared i ∈ s.trace →
    Ev.handler i .set_complete ∈ s.trace ∨ track s.trace = some i
  /-- When a `wait()` returned, the flag was true and every operation started before
  had been completed by its handler. -/
  waits : ∀ (pre post : List (Ev Arg)) (w : Tid), s.trace = pre ++ Ev.wait_returned w :: post →
    track pre = none ∧ ∀ i, Ev.flag_cleared i ∈ pre → Ev.handler i .set_complete ∈ pre
  /-- A handler calls its callback before it writes the flag. -/
  order : ∀ (pre post : List (Ev Arg)) (i : Tid), s.trace = pre ++ Ev.handler i .set_complete :: post →
    ∃ a, a.isCallback = true ∧ Ev.handler i a ∈ pre

/-- Is the thread inside `operator()`, between taking the lock and returning? -/
def Pc.inInvoke {Arg R : Type} : Pc Arg R → Bool
  | .inv_assert _ => true
  | .inv_clear _ => true
  | .inv_call _ => true
  | .inv_return => true
  | _ => false

/-- The contract of `wait()` for a bridge whose handler body is `handler`, over
every state `s` a fresh bridge can reach:

* a step by which a `wait()` call returns starts and ends with `_complete` true;
* when a `wait()` call has returned, every `operator()` call that had cleared the
  flag before has had its own handler write `_complete = true` before;
* a handler that wrote `_complete = true` had called a callback before. -/
def WaitContract {Arg R : Type} (handler : R → HandlerRun Arg) : Prop :=
  ∀ s : State Arg R, Reachable handler s →
    (∀ (t : Tid) (s2 : State Arg R), step handler s t = some s2 →
      s2.trace = s.trace ++ [Ev.wait_returned t] →
      s.complete = true ∧ s2.complete = true) ∧
    (∀ (pre post : List (Ev Arg)) (w : Tid), s.trace = pre ++ Ev.wait_returned w :: post →
      ∀ i : Tid, Ev.flag_cleared i ∈ pre → Ev.handler i .set_complete ∈ pre) ∧
    (∀ (pre post : List (Ev Arg)) (i : Tid),
      s.trace = pre ++ Ev.handler i .set_complete :: post →
      ∃ a, a.isCallback = true ∧ Ev.handler i a ∈ pre)

/-- For a bridge whose handler body is `handler`: in every state a fresh bridge can
reach, a thread inside `operator()` owns `_mutex`, and no handler run that has still
to take the lock can move. -/
def LockHeldThroughInvoke {Arg R : Type} (handler : R → HandlerRun Arg) : Prop :=
  ∀ s : State Arg R, Reachable handler s →
    ∀ (t : Tid) (pc : Pc Arg R), s.threads[t]? = some pc → pc.inInvoke = true →
      s.mutex = some t ∧
      ∀ (u i : Tid) (r : R), s.threads[u]? = some (Pc.cb_start i r) → step handler s u = none

/-- For a bridge whose handler body is `handler`: in every state a fresh bridge can
reach, at most one thread is carrying an operation to its flag write. -/
def NoOverlap {Arg R : Type} (handler : R → HandlerRun Arg) : Prop :=
  ∀ s : State Arg R, Reachable handler s →
    ∀ (u v : Tid) (p q : Pc Arg R), s.threads[u]? = some p → s.threads[v]? = some q →
      (pending u p).isSome = true → (pending v q).isSome = true → u = v

/-- The state in which the `operator()` call of thread 0 is about to call its
routine, on a fresh bridge. -/
def at_call_state : State Nat (confirmation_callback_t Nat String) :=
  run (rest_callback_tagged quiet_callbacks) (fresh [.inv_start tagged_ok]) [0, 0, 0]

/-- A fresh bridge on which thread 0 calls `operator()` and thread 1 calls
`wait()`. -/
def invoke_and_wait : State Nat (confirmation_callback_t Nat String) :=
  fresh [.inv_start tagged_ok, .wait_start]

end B12

namespace B12


/-! ## `to_upper` -/

/-- What `to_upper` computes: the letters strictly between `'a'` and `'z'` are
moved to upper case, every other value is left as it is. -/
theorem to_upper_eq (c : Int) :
    to_upper c = if 98 ≤ c ∧ c ≤ 121 then c - 32 else c := by
  unfold to_upper
  by_cases h : c > 97 ∧ c < 122
  · have h2 : 98 ≤ c ∧ c ≤ 121 := by omega
    rw [if_pos h, if_pos h2]; omega
  · have h2 : ¬ (98 ≤ c ∧ c ≤ 121) := by omega
    rw [if_neg h, if_neg h2]

/-- C10: on `'a'` (97) and on `'z'` (122) `to_upper` leaves the value unchanged and
does not produce the upper-case letter `c + 'A' - 'a'`, while on `'b'` (98) it
does. -/
theorem to_upper_misses_a_and_z :
    to_upper 97 = 97 ∧ to_upper 97 ≠ 97 + 65 - 97 ∧
    to_upper 122 = 122 ∧ to_upper 122 ≠ 122 + 65 - 97 ∧
    to_upper 98 = 98 + 65 - 97 := by
  decide

/-! ## The completion handler -/

theorem callbackCount_finish {Arg : Type} : callbackCount (finish : HandlerRun Arg) = 0 := rfl

theorem callbackCount_call_then {Arg : Type} (r : CallResult) (a : Action Arg)
    (ha : a.isCallback = true) :
    callbackCount (call_then r a finish) = 1 := by
  cases r
  · simp [call_then, callbackCount, finish, ha, List.countP_cons]; simp [Action.isCallback]
  · simp [call_then, callbackCount, ha, List.countP_cons]

theorem call_then_actions {Arg : Type} (r : CallResult) (a : Action Arg) :
    ∃ rest, (call_then r a finish).actions = a :: rest ∧
      ∀ b ∈ rest, b.isCallback = false := by
  cases r
  · exact ⟨[.set_complete, .notify_all], rfl, by simp [Action.isCallback]⟩
  · exact ⟨[], rfl, by simp⟩

theorem call_then_outcome {Arg : Type} (r : CallResult) (a : Action Arg) :
    (call_then r a finish).outcome = r := by
  cases r <;> rfl

/-- C2, as the claim states it, fails: on a tagged result that is not an error and
whose value holds another alternative than `Arg`, the handler calls neither
callback. -/
theorem no_callback_on_other_alternative :
    callbackCount (rest_callback_tagged quiet_callbacks tagged_other) ≠ 1 := by
  decide

/-- C2, amended: the handler calls exactly one callback exactly once on every flat
result and on every tagged result that is an error or whose value holds an `Arg`;
on a tagged result that is not an error and holds another alternative it calls
none. -/
theorem one_callback_unless_other_alternative {Arg Other : Type} :
    (∀ (h_success : http_error) (cb : Callbacks http_request_completion_t)
        (res : http_request_completion_t),
        callbackCount (rest_callback_flat h_success cb res) = 1) ∧
    (∀ (cb : Callbacks Arg) (result : confirmation_callback_t Arg Other),
        (result.is_error = true ∨ ∃ a, result.value = .holds a) →
        callbackCount (rest_callback_tagged cb result) = 1) ∧
    (∀ (cb : Callbacks Arg) (result : confirmation_callback_t Arg Other) (o : Other),
        result.is_error = false → result.value = .other o →
        callbackCount (rest_callback_tagged cb result) = 0) := by
  refine ⟨?_, ?_, ?_⟩
  · intro h_success cb res
    unfold rest_callback_flat
    split
    · exact callbackCount_call_then _ _ rfl
    · exact callbackCount_call_then _ _ rfl
  · intro cb result h
    unfold rest_callback_tagged
    by_cases he : result.is_error = true
    · rw [if_pos he]; exact callbackCount_call_then _ _ rfl
    · rw [if_neg he]
      rcases h with h | ⟨a, ha⟩
      · exact absurd h he
      · rw [ha]; exact callbackCount_call_then _ _ rfl
  · intro cb result o he hv
    unfold rest_callback_tagged
    rw [he, hv]; rfl

/-- Witness of C2, amended: a flat result, a tagged result holding 7 and a tagged
result holding another alternative. -/
theorem one_callback_unless_other_alternative_witness :
    callbackCount (rest_callback_flat 0 quiet_flat_callbacks flat_failed) = 1 ∧
    callbackCount (rest_callback_tagged quiet_callbacks tagged_ok) = 1 ∧
    callbackCount (rest_callback_tagged quiet_callbacks tagged_other) = 0 :=
  ⟨(@one_callback_unless_other_alternative Nat String).1 0
      quiet_flat_callbacks flat_failed,
   (@one_callback_unless_other_alternative Nat String).2.1
      quiet_callbacks tagged_ok (Or.inr ⟨7, rfl⟩),
   (@one_callback_unless_other_alternative Nat String).2.2
      quiet_callbacks tagged_other "confirmation" rfl rfl⟩

/-- C3: on a tagged result that is not an error and whose value holds `V`, the
first thing the handler does is call `_on_success` with `V` itself, and it calls no
other callback, so not `_on_error`. -/
theorem tagged_success_delivers_value {Arg Other : Type} (cb : Callbacks Arg)
    (result : confirmation_callback_t Arg Other) (V : Arg)
    (hok : result.is_error = false) (hv : result.value = .holds V) :
    ∃ rest, (rest_callback_tagged cb result).actions = .on_success V :: rest ∧
      ∀ b ∈ rest, b.isCallback = false := by
  unfold rest_callback_tagged
  rw [hok, hv]
  exact call_then_actions _ _

/-- Witness of C3: the tagged result holding 7. -/
theorem tagged_success_delivers_value_witness :
    ∃ rest, (rest_callback_tagged quiet_callbacks tagged_ok).actions = .on_success 7 :: rest ∧
      ∀ b ∈ rest, b.isCallback = false :=
  tagged_success_delivers_value quiet_callbacks tagged_ok 7 rfl rfl

/-- C4: on a tagged result that is an error, the first thing the handler does is
call `_on_error` with what `get_error()` returns, and it calls no other callback,
so not `_on_success`. -/
theorem tagged_error_delivers_error {Arg Other : Type} (cb : Callbacks Arg)
    (result : confirmation_callback_t Arg Other) (herr : result.is_error = true) :
    ∃ rest, (rest_callback_tagged cb result).actions = .on_error result.get_error :: rest ∧
      ∀ b ∈ rest, b.isCallback = false := by
  unfold rest_callback_tagged
  rw [if_pos herr]
  exact call_then_actions _ _

/-- Witness of C4: the tagged error result with code 50001. -/
theorem tagged_error_delivers_error_witness :
    ∃ rest, (rest_callback_tagged quiet_callbacks tagged_err).actions =
        .on_error ⟨50001, "Missing Access", []⟩ :: rest ∧
      ∀ b ∈ rest, b.isCallback = false :=
  tagged_error_delivers_error quiet_callbacks tagged_err rfl

/-- C5: on a flat result whose status is not `h_success`, the handler calls
`_on_error` (and no other callback) with a descriptor whose code is the numeric
value of the status and whose message is `"error code "` followed by the decimal
digits of that number; on a flat result whose status is `h_success` it calls
`_on_success` (and no other callback) with the whole result. -/
theorem flat_dispatch (h_success : http_error) (cb : Callbacks http_request_completion_t)
    (res : http_request_completion_t) :
    (res.error ≠ h_success →
      ∃ e rest, (rest_callback_flat h_success cb res).actions = .on_error e :: rest ∧
        (∀ b ∈ rest, b.isCallback = false) ∧
        e.code = res.error.val ∧
        e.message = "error code " ++ Nat.repr res.error.val ∧
        ∃ before after, e.message = before ++ Nat.repr e.code ++ after) ∧
    (res.error = h_success →
      ∃ rest, (rest_callback_flat h_success cb res).actions = .on_success res :: rest ∧
        ∀ b ∈ rest, b.isCallback = false) := by
  constructor
  · intro hne
    unfold rest_callback_flat
    rw [if_pos hne]
    obtain ⟨rest, h1, h2⟩ := call_then_actions
      (cb.on_error ⟨static_cast_uint32 res.error.val, format_error_code res.error.val, []⟩)
      (@Action.on_error http_request_completion_t
        ⟨static_cast_uint32 res.error.val, format_error_code res.error.val, []⟩)
    have hc : static_cast_uint32 res.error.val = res.error.val :=
      Nat.mod_eq_of_lt res.error.isLt
    refine ⟨_, rest, h1, h2, hc, rfl, "error code ", "", ?_⟩
    show format_error_code res.error.val = _
    rw [hc]
    simp [format_error_code]
    rfl
  · intro heq
    unfold rest_callback_flat
    rw [if_neg (not_not.mpr heq)]
    exact call_then_actions _ _

/-- Witness of C5: a flat result with the failing status 3, and one with the
success status 0. -/
theorem flat_dispatch_witness :
    (∃ e rest, (rest_callback_flat 0 quiet_flat_callbacks flat_failed).actions =
        .on_error e :: rest ∧
        (∀ b ∈ rest, b.isCallback = false) ∧
        e.code = 3 ∧ e.message = "error code 3" ∧
        ∃ before after, e.message = before ++ Nat.repr e.code ++ after) ∧
    (∃ rest, (rest_callback_flat 0 quiet_flat_callbacks flat_ok).actions =
        .on_success flat_ok :: rest ∧
        ∀ b ∈ rest, b.isCallback = false) :=
  ⟨(flat_dispatch 0 quiet_flat_callbacks flat_failed).1 (by decide),
   (flat_dispatch 0 quiet_flat_callbacks flat_ok).2 rfl⟩

/-- C8, as the claim states it, fails: an exception leaves the handler when the
value of a tagged non-error result holds another alternative than `Arg`, and when
the callback it calls throws. -/
theorem handler_lets_exceptions_through :
    (rest_callback_tagged quiet_callbacks tagged_other).outcome ≠ .returns ∧
    (rest_callback_tagged throwing_callbacks tagged_err).outcome ≠ .returns := by
  decide

/-- C8, amended: the handler has no exception handling of its own. It returns
normally exactly when the one callback it calls returns normally and, for a tagged
result that is not an error, the value holds an `Arg`. -/
theorem handler_returns_iff {Arg Other : Type} :
    (∀ (cb : Callbacks Arg) (result : confirmation_callback_t Arg Other),
      (rest_callback_tagged cb result).outcome = .returns ↔
        if result.is_error = true then cb.on_error result.get_error = .returns
        else ∃ a, result.value = .holds a ∧ cb.on_success a = .returns) ∧
    (∀ (h_success : http_error) (cb : Callbacks http_request_completion_t)
        (res : http_request_completion_t),
      (rest_callback_flat h_success cb res).outcome = .returns ↔
        if res.error ≠ h_success then
          cb.on_error ⟨res.error.val, "error code " ++ Nat.repr res.error.val, []⟩ = .returns
        else cb.on_success res = .returns) := by
  constructor
  · intro cb result
    unfold rest_callback_tagged
    by_cases he : result.is_error = true
    · rw [if_pos he, if_pos he, call_then_outcome]
    · rw [if_neg he, if_neg he]
      cases hv : result.value with
      | holds a => simp [std_get, call_then_outcome]
      | other o => simp [std_get]
  · intro h_success cb res
    have hc : static_cast_uint32 res.error.val = res.error.val :=
      Nat.mod_eq_of_lt res.error.isLt
    unfold rest_callback_flat
    by_cases hne : res.error ≠ h_success
    · rw [if_pos hne, if_pos hne]
      simp only [call_then_outcome, hc]
      rfl
    · rw [if_neg hne, if_neg hne, call_then_outcome]

/-! ## The transition system -/

theorem upd_id {Arg R : Type} (l : List (Pc Arg R)) (t : Nat) (q : Pc Arg R) :
    upd l t q id [] = l.set t q := by
  simp [upd]

theorem upd_same {Arg R : Type} (l : List (Pc Arg R)) (t : Nat) (q : Pc Arg R)
    (h : l[t]? = some q) : upd l t q id [] = l := by
  rw [upd_id]
  apply List.ext_getElem?
  intro n
  by_cases hn : t = n
  · subst hn
    rw [List.getElem?_set_self', h]; rfl
  · rw [List.getElem?_set_ne hn]

theorem step_sound {Arg R : Type} (handler : R → HandlerRun Arg) (s s' : State Arg R)
    (t : Tid) (h : step handler s t = some s') : s.aborted = false ∧ Step handler s t s' := by
  unfold step at h
  split at h
  · cases h
  · rename_i hab
    refine ⟨by simpa using hab, ?_⟩
    split at h
    · cases h
    · split at h
      · cases h; rw [← upd_id]; exact Step.inv_start _ ‹_› ‹_›
      · cases h
    · split at h
      · cases h; rw [← upd_id]; exact Step.assert_ok _ ‹_› ‹_›
      · cases h
        rename_i r hpc hc
        have := @Step.assert_fail Arg R handler s t r hpc (by simpa using hc)
        rwa [upd_same _ _ _ hpc] at this
    · cases h; rw [← upd_id]; exact Step.inv_clear _ ‹_›
    · cases h
      rename_i r hpc
      have := @Step.inv_call Arg R handler s t r hpc
      simpa [upd] using this
    · cases h; rw [← upd_id]; exact Step.inv_return ‹_›
    · split at h
      · cases h; rw [← upd_id]; exact Step.wait_start ‹_› ‹_›
      · cases h
    · split at h
      · cases h; rw [← upd_id]; exact Step.wait_pass ‹_› ‹_›
      · cases h; rw [← upd_id]; exact Step.wait_block ‹_› (by simpa using ‹¬ s.complete = true›)
    · cases h; rw [← upd_id]; exact Step.wait_wake ‹_›
    · split at h
      · cases h; rw [← upd_id]; exact Step.wait_reacquire ‹_› ‹_›
      · cases h
    · cases h; rw [← upd_id]; exact Step.wait_return ‹_›
    · split at h
      · cases h; rw [← upd_id]; exact Step.cb_start _ _ ‹_› ‹_›
      · cases h
    · rename_i i a todo out hpc
      cases h
      cases a with
      | on_success x =>
        have := @Step.cb_callback Arg R handler s t _ _ _ _ hpc rfl
        simpa [upd, perform] using this
      | on_error e =>
        have := @Step.cb_callback Arg R handler s t _ _ _ _ hpc rfl
        simpa [upd, perform] using this
      | set_complete =>
        have := @Step.cb_set_complete Arg R handler s t _ _ _ hpc
        simpa [upd, perform] using this
      | notify_all =>
        have := @Step.cb_notify_all Arg R handler s t _ _ _ hpc
        simpa [upd, perform] using this
    · cases h; rw [← upd_id]; exact Step.cb_leave _ _ ‹_›
    · cases h

theorem lookup_upd {Arg R : Type} (l : List (Pc Arg R)) (t u : Nat) (q x : Pc Arg R)
    (f : Pc Arg R → Pc Arg R) (sp : List (Pc Arg R)) (hq : ∃ p, l[t]? = some p) :
    (upd l t q f sp)[u]? = some x ↔
      (u = t ∧ x = q) ∨ (u ≠ t ∧ ∃ y, l[u]? = some y ∧ x = f y) ∨
      (l.length ≤ u ∧ sp[u - l.length]? = some x) := by
  obtain ⟨p, hp⟩ := hq
  have hlt : t < l.length := by
    by_contra hge
    rw [List.getElem?_eq_none (by omega)] at hp
    cases hp
  unfold upd
  rw [List.getElem?_append]
  simp only [List.length_set, List.length_map]
  by_cases hu : u < l.length
  · rw [if_pos hu]
    by_cases hut : u = t
    · subst hut
      rw [List.getElem?_set_self (by simpa using hu)]
      constructor
      · intro h; left; exact ⟨rfl, (Option.some.inj h).symm⟩
      · rintro (⟨-, rfl⟩ | ⟨hne, -⟩ | ⟨hge, -⟩)
        · rfl
        · exact absurd rfl hne
        · omega
    · rw [List.getElem?_set_ne (Ne.symm hut), List.getElem?_map]
      constructor
      · intro h
        right; left
        refine ⟨hut, ?_⟩
        cases hl : l[u]? with
        | none => rw [hl] at h; cases h
        | some y => rw [hl] at h; exact ⟨y, rfl, (Option.some.inj h).symm⟩
      · rintro (⟨rfl, -⟩ | ⟨-, y, hy, rfl⟩ | ⟨hge, -⟩)
        · exact absurd rfl hut
        · rw [hy]; rfl
        · omega
  · rw [if_neg hu]
    constructor
    · intro h; right; right; exact ⟨by omega, h⟩
    · rintro (⟨rfl, -⟩ | ⟨-, y, hy, -⟩ | ⟨-, h⟩)
      · omega
      · rw [List.getElem?_eq_none (by omega)] at hy; cases hy
      · exact h

theorem wake_holds {Arg R : Type} (pc : Pc Arg R) : (wake pc).holds = pc.holds := by
  cases pc <;> rfl

theorem wake_sure {Arg R : Type} (pc : Pc Arg R) : (wake pc).sure = pc.sure := by
  cases pc <;> rfl

theorem wake_pending {Arg R : Type} (u : Tid) (pc : Pc Arg R) :
    pending u (wake pc) = pending u pc := by
  cases pc <;> rfl

theorem sure_holds {Arg R : Type} (pc : Pc Arg R) (h : pc.sure = true) : pc.holds = true := by
  cases pc <;> first | rfl | cases h

theorem wake_cb_body {Arg R : Type} (y : Pc Arg R) (i : Tid) (todo : List (Action Arg))
    (out : CallResult) (h : Pc.cb_body i todo out = wake y) : y = .cb_body i todo out := by
  cases y <;> first | exact h.symm | cases h

theorem track_concat {Arg : Type} (tr : List (Ev Arg)) (e : Ev Arg) :
    track (tr ++ [e]) = trackStep (track tr) e := by
  simp [track, List.foldl_append]

theorem trackStep_callback {Arg : Type} (o : Option Tid) (i : Tid) (a : Action Arg)
    (ha : a.isCallback = true) : trackStep o (.handler i a) = o := by
  cases a <;> first | rfl | cases ha

theorem split_concat {α : Type} (tr pre post : List α) (e x : α)
    (h : tr ++ [e] = pre ++ x :: post) :
    (post = [] ∧ pre = tr ∧ x = e) ∨ ∃ post1, post = post1 ++ [e] ∧ tr = pre ++ x :: post1 := by
  rcases List.eq_nil_or_concat post with rfl | ⟨post1, z, rfl⟩
  · left
    have h2 : tr ++ [e] = pre ++ [x] := h
    have h3 := List.append_inj' h2 rfl
    exact ⟨rfl, h3.1.symm, (List.cons.inj h3.2).1.symm⟩
  · right
    have h2 : tr ++ [e] = (pre ++ x :: post1) ++ [z] := by
      rw [h]; simp
    have h3 := List.append_inj' h2 rfl
    have hz : e = z := (List.cons.inj h3.2).1
    exact ⟨post1, by rw [hz, List.concat_eq_append], h3.1⟩

theorem other_holder {Arg R : Type} (s : State Arg R) (hI : Inv s) (t u : Tid)
    (p y : Pc Arg R) (hp : s.threads[t]? = some p) (hy : s.threads[u]? = some y)
    (h1 : p.holds = true) (h2 : y.holds = true) : u = t := by
  have a := hI.mutex t p hp h1
  have b := hI.mutex u y hy h2
  rw [a] at b
  exact (Option.some.inj b).symm

theorem spawn_one {Arg R : Type} (l : List (Pc Arg R)) (u : Nat) (n x : Pc Arg R)
    (hge : l.length ≤ u) (hsp : [n][u - l.length]? = some x) : u = l.length ∧ x = n := by
  rcases Nat.eq_zero_or_pos (u - l.length) with h0 | hpos
  · rw [h0] at hsp
    exact ⟨by omega, (Option.some.inj hsp).symm⟩
  · obtain ⟨k, hk⟩ := Nat.exists_eq_succ_of_ne_zero (Nat.pos_iff_ne_zero.mp hpos)
    rw [hk] at hsp
    simp at hsp

theorem spawn_none {Arg R : Type} (u : Nat) (x : Pc Arg R)
    (hsp : ([] : List (Pc Arg R))[u]? = some x) : False := by
  simp at hsp

theorem step_mutex {Arg R : Type} (handler : R → HandlerRun Arg) (s s' : State Arg R)
    (t : Tid) (hI : Inv s) (hs : Step handler s t s') :
    ∀ (u : Tid) (pc : Pc Arg R), s'.threads[u]? = some pc → pc.holds = true →
      s'.mutex = some u := by
  cases hs <;> intro u pc hu hh <;> rw [lookup_upd _ _ _ _ _ _ _ ⟨_, ‹_›⟩] at hu <;>
    rcases hu with ⟨rfl, rfl⟩ | ⟨hne, y, hy, rfl⟩ | ⟨hge, hsp⟩ <;> dsimp only
  all_goals
    first
    | exact (spawn_none _ _ hsp).elim
    | (obtain ⟨-, rfl⟩ := spawn_one _ _ _ _ hge hsp; cases hh)
    | (cases hh; done)
    | rfl
    | (refine hI.mutex u _ ‹s.threads[u]? = some _› ?_; rfl)
    | exact hI.mutex u _ hy (by simpa only [wake_holds, id] using hh)
    | (have h1 := hI.mutex u _ hy (by simpa only [wake_holds, id] using hh)
       have h2 : s.mutex = none := ‹_›
       rw [h2] at h1; cases h1; done)
    | (have h1 : u = t := by
         refine other_holder s hI t u _ _ ‹s.threads[t]? = some _› hy ?_
           (by simpa only [wake_holds, id] using hh)
         rfl
       exact absurd h1 hne)

theorem step_sure {Arg R : Type} (handler : R → HandlerRun Arg) (s s' : State Arg R)
    (t : Tid) (hI : Inv s) (hs : Step handler s t s') :
    ∀ (u : Tid) (pc : Pc Arg R), s'.threads[u]? = some pc → pc.sure = true →
      s'.complete = true := by
  cases hs <;> intro u pc hu hh <;> rw [lookup_upd _ _ _ _ _ _ _ ⟨_, ‹_›⟩] at hu <;>
    rcases hu with ⟨rfl, rfl⟩ | ⟨hne, y, hy, rfl⟩ | ⟨hge, hsp⟩ <;> dsimp only
  all_goals
    first
    | exact (spawn_none _ _ hsp).elim
    | (obtain ⟨-, rfl⟩ := spawn_one _ _ _ _ hge hsp; cases hh)
    | (cases hh; done)
    | rfl
    | assumption
    | exact hI.sure u _ hy (by simpa only [wake_sure, id] using hh)
    | (have h1 : u = t := by
         refine other_holder s hI t u _ _ ‹s.threads[t]? = some _› hy ?_
           (sure_holds _ (by simpa only [wake_sure, id] using hh))
         rfl
       exact absurd h1 hne)

theorem pending_cb_body {Arg R : Type} (u i : Tid) (todo : List (Action Arg))
    (out : CallResult) :
    pending u (Pc.cb_body i todo out : Pc Arg R) =
      if todo.any Action.isSetComplete = true then some i else none := rfl

theorem pending_body {Arg R : Type} (u i j : Tid) (todo : List (Action Arg)) (out : CallResult)
    (h : pending u (Pc.cb_body i todo out : Pc Arg R) = some j) :
    j = i ∧ todo.any Action.isSetComplete = true := by
  rw [pending_cb_body] at h
  by_cases ha : todo.any Action.isSetComplete = true
  · rw [if_pos ha] at h
    exact ⟨(Option.some.inj h).symm, ha⟩
  · rw [if_neg ha] at h
    cases h

theorem pending_cons {Arg R : Type} (u i j : Tid) (a : Action Arg) (todo : List (Action Arg))
    (out : CallResult) (h : pending u (Pc.cb_body i todo out : Pc Arg R) = some j) :
    pending u (Pc.cb_body i (a :: todo) out : Pc Arg R) = some j := by
  obtain ⟨rfl, ha⟩ := pending_body u i j todo out h
  rw [pending_cb_body]
  rw [if_pos (by simp [List.any_cons, ha])]

theorem pending_write {Arg R : Type} (u i : Tid) (todo : List (Action Arg)) (out : CallResult) :
    pending u (Pc.cb_body i (Action.set_complete :: todo) out : Pc Arg R) = some i := by
  rw [pending_cb_body]
  rw [if_pos (by simp [List.any_cons, Action.isSetComplete])]

theorem no_second_write {Arg : Type} (todo : List (Action Arg))
    (h : (Action.set_complete :: todo).countP Action.isSetComplete ≤ 1) :
    todo.any Action.isSetComplete = false := by
  rw [List.countP_cons_of_pos _ _ (by rfl)] at h
  have h0 : todo.countP Action.isSetComplete = 0 := by omega
  rw [List.countP_eq_zero] at h0
  rw [List.any_eq_false]
  intro a ha
  exact h0 a ha

theorem step_flag {Arg R : Type} (handler : R → HandlerRun Arg) (s s' : State Arg R)
    (t : Tid) (hI : Inv s) (hs : Step handler s t s') :
    s'.complete = true ↔ track s'.trace = none := by
  have hf := hI.flag
  cases hs <;> dsimp only <;> (try rw [track_concat])
  all_goals
    first
    | exact hf
    | (rw [trackStep_callback _ _ _ ‹_›]; exact hf)
    | (simp [trackStep]; done)


theorem clear_track {Arg R : Type} (s : State Arg R) (hI : Inv s) (t : Tid) (p : Pc Arg R)
    (hp : s.threads[t]? = some p) (hs : p.sure = true) : track s.trace = none :=
  hI.flag.mp (hI.sure t p hp hs)

theorem step_owner {Arg R : Type} (handler : R → HandlerRun Arg) (s s' : State Arg R)
    (t : Tid) (hI : Inv s) (hs : Step handler s t s') :
    ∀ (u : Tid) (pc : Pc Arg R) (j : Tid), s'.threads[u]? = some pc →
      pending u pc = some j → track s'.trace = some j := by
  obtain ⟨w, hw⟩ := hI.unique
  cases hs <;> intro u pc j hu hp <;> rw [lookup_upd _ _ _ _ _ _ _ ⟨_, ‹_›⟩] at hu <;>
    rcases hu with ⟨rfl, rfl⟩ | ⟨hne, y, hy, rfl⟩ | ⟨hge, hsp⟩ <;> dsimp only <;>
    (try rw [track_concat])
  all_goals
    first
    | exact (spawn_none _ _ hsp).elim
    | (obtain ⟨-, rfl⟩ := spawn_one _ _ _ _ hge hsp
       obtain rfl : t = j := Option.some.inj hp
       refine hI.owner t _ t ‹s.threads[t]? = some _› ?_
       rfl)
    | (cases hp; done)
    | exact hp
    | (obtain ⟨rfl, -⟩ := pending_body _ _ _ _ _ hp
       refine hI.owner u _ _ ‹s.threads[u]? = some _› ?_
       rfl)
    | (rw [trackStep_callback _ _ _ ‹_›]
       exact hI.owner u _ j ‹s.threads[u]? = some _› (pending_cons _ _ _ _ _ _ hp))
    | exact hI.owner u _ j ‹s.threads[u]? = some _› (pending_cons _ _ _ _ _ _ hp)
    | (have h1 := (hI.body u _ _ _ ‹s.threads[u]? = some _›).1
       have h2 := no_second_write _ h1
       have h3 := (pending_body _ _ _ _ _ hp).2
       rw [h2] at h3; cases h3; done)
    | exact hI.owner u _ j hy (by simpa only [wake_pending, id] using hp)
    | (rw [trackStep_callback _ _ _ ‹_›]
       exact hI.owner u _ j hy (by simpa only [wake_pending, id] using hp))
    | (have h1 := hI.owner u _ j hy (by simpa only [wake_pending, id] using hp)
       have h2 : track s.trace = none := by
         refine clear_track s hI t _ ‹s.threads[t]? = some _› ?_
         rfl
       rw [h2] at h1; cases h1; done)
    | (have h1 : u = w := hw u _ hy
         (Option.isSome_iff_exists.mpr ⟨j, by simpa only [wake_pending, id] using hp⟩)
       have h2 : t = w := hw t _ ‹s.threads[t]? = some _› (by rw [pending_write]; rfl)
       exact absurd (h1.trans h2.symm) hne)

theorem pending_isSome_cons {Arg R : Type} (u i : Tid) (a : Action Arg)
    (todo : List (Action Arg)) (out : CallResult)
    (h : (pending u (Pc.cb_body i todo out : Pc Arg R)).isSome = true) :
    (pending u (Pc.cb_body i (a :: todo) out : Pc Arg R)).isSome = true := by
  obtain ⟨j, hj⟩ := Option.isSome_iff_exists.mp h
  rw [pending_cons u i j a todo out hj]; rfl

theorem step_unique {Arg R : Type} (handler : R → HandlerRun Arg) (s s' : State Arg R)
    (t : Tid) (hI : Inv s) (hs : Step handler s t s') :
    ∃ w : Tid, ∀ (u : Tid) (pc : Pc Arg R), s'.threads[u]? = some pc →
      (pending u pc).isSome = true → u = w := by
  obtain ⟨w, hw⟩ := hI.unique
  cases hs
  case inv_clear r hpc =>
    refine ⟨t, ?_⟩
    intro u pc hu hp
    rw [lookup_upd _ _ _ _ _ _ _ ⟨_, hpc⟩] at hu
    rcases hu with ⟨rfl, rfl⟩ | ⟨hne, y, hy, rfl⟩ | ⟨hge, hsp⟩
    · rfl
    · obtain ⟨j, hj⟩ := Option.isSome_iff_exists.mp hp
      have h1 := hI.owner u _ j hy hj
      rw [clear_track s hI t _ hpc rfl] at h1
      cases h1
    · exact (spawn_none _ _ hsp).elim
  case inv_call r hpc =>
    refine ⟨s.threads.length, ?_⟩
    intro u pc hu hp
    rw [lookup_upd _ _ _ _ _ _ _ ⟨_, hpc⟩] at hu
    rcases hu with ⟨rfl, rfl⟩ | ⟨hne, y, hy, rfl⟩ | ⟨hge, hsp⟩
    · cases hp
    · have h1 : u = w := hw u _ hy hp
      have h2 : t = w := hw t _ hpc rfl
      exact absurd (h1.trans h2.symm) hne
    · exact (spawn_one _ _ _ _ hge hsp).1
  all_goals
    refine ⟨w, ?_⟩
    intro u pc hu hp
    rw [lookup_upd _ _ _ _ _ _ _ ⟨_, ‹_›⟩] at hu
    rcases hu with ⟨rfl, rfl⟩ | ⟨hne, y, hy, rfl⟩ | ⟨hge, hsp⟩
  all_goals
    first
    | exact (spawn_none _ _ hsp).elim
    | (cases hp; done)
    | (refine hw u _ ‹s.threads[u]? = some _› ?_; rfl)
    | exact hw u _ ‹s.threads[u]? = some _› (pending_isSome_cons _ _ _ _ _ hp)
    | exact hw u _ hy (by simpa only [wake_pending, id] using hp)

theorem body_lift {Arg : Type} (tr tr2 : List (Ev Arg)) (i : Tid) (todo : List (Action Arg))
    (hsub : ∀ x, x ∈ tr → x ∈ tr2)
    (h : todo.countP Action.isSetComplete ≤ 1 ∧
      (cbFirst todo = true ∨ ∃ a, a.isCallback = true ∧ Ev.handler i a ∈ tr)) :
    todo.countP Action.isSetComplete ≤ 1 ∧
      (cbFirst todo = true ∨ ∃ a, a.isCallback = true ∧ Ev.handler i a ∈ tr2) := by
  refine ⟨h.1, ?_⟩
  rcases h.2 with h2 | ⟨a, ha, hm⟩
  · exact Or.inl h2
  · exact Or.inr ⟨a, ha, hsub _ hm⟩

theorem body_tail {Arg : Type} (tr : List (Ev Arg)) (i : Tid) (a : Action Arg)
    (todo : List (Action Arg))
    (h : (a :: todo).countP Action.isSetComplete ≤ 1 ∧
      (cbFirst (a :: todo) = true ∨ ∃ b, b.isCallback = true ∧ Ev.handler i b ∈ tr)) :
    todo.countP Action.isSetComplete ≤ 1 ∧
      (cbFirst todo = true ∨ ∃ b, b.isCallback = true ∧ Ev.handler i b ∈ tr ++ [Ev.handler i a]) := by
  constructor
  · have := List.countP_cons Action.isSetComplete a todo
    omega
  · rcases h.2 with h2 | ⟨b, hb, hm⟩
    · by_cases hc : a.isCallback = true
      · exact Or.inr ⟨a, hc, by simp⟩
      · left
        unfold cbFirst at h2
        by_cases hs : a.isSetComplete = true
        · rw [if_pos hs] at h2; cases h2
        · rw [if_neg hs, if_neg hc] at h2; exact h2
    · exact Or.inr ⟨b, hb, List.mem_append_left _ hm⟩

theorem step_body {Arg R : Type} (handler : R → HandlerRun Arg) (s s' : State Arg R)
    (t : Tid) (hsh : ∀ r, Shaped (handler r)) (hI : Inv s) (hs : Step handler s t s') :
    ∀ (u i : Tid) (todo : List (Action Arg)) (out : CallResult),
      s'.threads[u]? = some (Pc.cb_body i todo out) →
      todo.countP Action.isSetComplete ≤ 1 ∧
      (cbFirst todo = true ∨ ∃ a, a.isCallback = true ∧ Ev.handler i a ∈ s'.trace) := by
  cases hs <;> intro u i todo out hu <;> rw [lookup_upd _ _ _ _ _ _ _ ⟨_, ‹_›⟩] at hu <;>
    rcases hu with ⟨rfl, hq⟩ | ⟨hne, y, hy, hq⟩ | ⟨hge, hsp⟩ <;> dsimp only
  all_goals
    first
    | exact (spawn_none _ _ hsp).elim
    | (obtain ⟨-, hq⟩ := spawn_one _ _ _ _ hge hsp; cases hq; done)
    | (cases hq; done)
    | (cases hq; exact ⟨(hsh _).1, Or.inl (hsh _).2⟩)
    | (cases hq; exact body_tail _ _ _ _ (hI.body u _ _ _ ‹s.threads[u]? = some _›))
    | (have hy2 := wake_cb_body _ _ _ _ hq
       subst hy2
       exact body_lift _ _ _ _ (fun _ h => List.mem_append_left _ h) (hI.body u _ _ _ hy))
    | (have hy2 : y = Pc.cb_body i todo out := hq.symm
       subst hy2
       first
       | exact hI.body u _ _ _ hy
       | exact body_lift _ _ _ _ (fun _ h => List.mem_append_left _ h) (hI.body u _ _ _ hy))

theorem settled_keep {Arg : Type} (tr : List (Ev Arg)) (e : Ev Arg)
    (hI : ∀ i : Tid, Ev.flag_cleared i ∈ tr →
      Ev.handler i .set_complete ∈ tr ∨ track tr = some i)
    (hne : ∀ i : Tid, e ≠ Ev.flag_cleared i) (hk : trackStep (track tr) e = track tr) :
    ∀ i : Tid, Ev.flag_cleared i ∈ tr ++ [e] →
      Ev.handler i .set_complete ∈ tr ++ [e] ∨ track (tr ++ [e]) = some i := by
  intro i hi
  rw [track_concat, hk]
  rcases List.mem_append.mp hi with h | h
  · rcases hI i h with h2 | h2
    · exact Or.inl (List.mem_append_left _ h2)
    · exact Or.inr h2
  · exact absurd (List.mem_singleton.mp h).symm (hne i)

theorem step_settled {Arg R : Type} (handler : R → HandlerRun Arg) (s s' : State Arg R)
    (t : Tid) (hI : Inv s) (hs : Step handler s t s') :
    ∀ i : Tid, Ev.flag_cleared i ∈ s'.trace →
      Ev.handler i .set_complete ∈ s'.trace ∨ track s'.trace = some i := by
  cases hs
  case inv_clear r hpc =>
    intro i hi
    dsimp only at hi ⊢
    rw [track_concat]
    rcases List.mem_append.mp hi with h | h
    · rcases hI.settled i h with h2 | h2
      · exact Or.inl (List.mem_append_left _ h2)
      · rw [clear_track s hI t _ hpc rfl] at h2; cases h2
    · right
      rw [List.mem_singleton] at h
      cases h; rfl
  case cb_set_complete i0 todo out hpc =>
    intro i hi
    dsimp only at hi ⊢
    left
    rcases List.mem_append.mp hi with h | h
    · rcases hI.settled i h with h2 | h2
      · exact List.mem_append_left _ h2
      · have h3 := hI.owner t _ i0 hpc (pending_write _ _ _ _)
        rw [h2] at h3
        obtain rfl : i = i0 := Option.some.inj h3
        simp
    · rw [List.mem_singleton] at h; cases h
  case cb_callback i0 a todo out hpc ha =>
    exact settled_keep _ _ hI.settled (fun i h => by cases h) (trackStep_callback _ _ _ ha)
  all_goals
    first
    | exact hI.settled
    | exact settled_keep _ _ hI.settled (fun i h => by cases h) rfl

theorem keep_split {Arg : Type} (tr : List (Ev Arg)) (e x : Ev Arg)
    (P : List (Ev Arg) → Prop)
    (hI : ∀ pre post : List (Ev Arg), tr = pre ++ x :: post → P pre)
    (hne : x = e → P tr) :
    ∀ pre post : List (Ev Arg), tr ++ [e] = pre ++ x :: post → P pre := by
  intro pre post h
  rcases split_concat tr pre post e x h with ⟨-, rfl, hx⟩ | ⟨post1, -, h2⟩
  · exact hne hx
  · exact hI pre post1 h2

theorem step_waits {Arg R : Type} (handler : R → HandlerRun Arg) (s s' : State Arg R)
    (t : Tid) (hI : Inv s) (hs : Step handler s t s') :
    ∀ (pre post : List (Ev Arg)) (w : Tid), s'.trace = pre ++ Ev.wait_returned w :: post →
      track pre = none ∧
        ∀ i : Tid, Ev.flag_cleared i ∈ pre → Ev.handler i .set_complete ∈ pre := by
  have key : ∀ (e : Ev Arg),
      (∀ w : Tid, Ev.wait_returned w = e → track s.trace = none ∧
        ∀ i : Tid, Ev.flag_cleared i ∈ s.trace → Ev.handler i .set_complete ∈ s.trace) →
      ∀ (pre post : List (Ev Arg)) (w : Tid),
        s.trace ++ [e] = pre ++ Ev.wait_returned w :: post →
        track pre = none ∧
          ∀ i : Tid, Ev.flag_cleared i ∈ pre → Ev.handler i .set_complete ∈ pre := by
    intro e he pre post w h
    exact keep_split s.trace e (Ev.wait_returned w)
      (fun pre => track pre = none ∧
        ∀ i : Tid, Ev.flag_cleared i ∈ pre → Ev.handler i .set_complete ∈ pre)
      (fun pre post h => hI.waits pre post w h) (he w) pre post h
  cases hs
  case wait_return hpc =>
    refine key _ ?_
    intro w _
    have h0 := clear_track s hI t _ hpc rfl
    refine ⟨h0, ?_⟩
    intro i hi
    rcases hI.settled i hi with h2 | h2
    · exact h2
    · rw [h0] at h2; cases h2
  all_goals
    first
    | exact hI.waits
    | exact key _ (fun w h => by cases h)

theorem step_order {Arg R : Type} (handler : R → HandlerRun Arg) (s s' : State Arg R)
    (t : Tid) (hI : Inv s) (hs : Step handler s t s') :
    ∀ (pre post : List (Ev Arg)) (i : Tid),
      s'.trace = pre ++ Ev.handler i .set_complete :: post →
      ∃ a, a.isCallback = true ∧ Ev.handler i a ∈ pre := by
  have key : ∀ (e : Ev Arg),
      (∀ i : Tid, Ev.handler i .set_complete = e →
        ∃ a, a.isCallback = true ∧ Ev.handler i a ∈ s.trace) →
      ∀ (pre post : List (Ev Arg)) (i : Tid),
        s.trace ++ [e] = pre ++ Ev.handler i .set_complete :: post →
        ∃ a, a.isCallback = true ∧ Ev.handler i a ∈ pre := by
    intro e he pre post i h
    exact keep_split s.trace e (Ev.handler i .set_complete)
      (fun pre => ∃ a, a.isCallback = true ∧ Ev.handler i a ∈ pre)
      (fun pre post h => hI.order pre post i h) (he i) pre post h
  cases hs
  case cb_set_complete i0 todo out hpc =>
    refine key _ ?_
    intro i hi
    cases hi
    rcases (hI.body t _ _ _ hpc).2 with h | h
    · cases h
    · exact h
  case cb_callback i0 a todo out hpc ha =>
    refine key _ ?_
    intro i hi
    cases hi
    cases ha
  all_goals
    first
    | exact hI.order
    | exact key _ (fun w h => by cases h)

theorem inv_step {Arg R : Type} (handler : R → HandlerRun Arg) (s s' : State Arg R)
    (t : Tid) (hsh : ∀ r, Shaped (handler r)) (hI : Inv s) (hs : Step handler s t s') :
    Inv s' :=
  ⟨step_mutex handler s s' t hI hs, step_sure handler s s' t hI hs,
   step_flag handler s s' t hI hs, step_owner handler s s' t hI hs,
   step_unique handler s s' t hI hs, step_body handler s s' t hsh hI hs,
   step_settled handler s s' t hI hs, step_waits handler s s' t hI hs,
   step_order handler s s' t hI hs⟩

theorem entry_of_lookup {Arg R : Type} (threads : List (Pc Arg R))
    (h : ∀ pc ∈ threads, pc.isEntry = true) (u : Tid) (pc : Pc Arg R)
    (hu : threads[u]? = some pc) : pc.isEntry = true :=
  h pc (List.getElem?_mem hu)

theorem inv_fresh {Arg R : Type} (threads : List (Pc Arg R))
    (h : ∀ pc ∈ threads, pc.isEntry = true) : Inv (fresh threads) := by
  refine ⟨?_, ?_, ?_, ?_, ⟨0, ?_⟩, ?_, ?_, ?_, ?_⟩
  · intro u pc hu hh
    have he := entry_of_lookup threads h u pc hu
    cases pc <;> first | (cases he; done) | (cases hh; done)
  · intro u pc hu hh
    have he := entry_of_lookup threads h u pc hu
    cases pc <;> first | (cases he; done) | (cases hh; done)
  · exact ⟨fun _ => rfl, fun _ => rfl⟩
  · intro u pc j hu hp
    have he := entry_of_lookup threads h u pc hu
    cases pc <;> first | (cases he; done) | (cases hp; done)
  · intro u pc hu hp
    have he := entry_of_lookup threads h u pc hu
    cases pc <;> first | (cases he; done) | (cases hp; done)
  · intro u i todo out hu
    have he := entry_of_lookup threads h u _ hu
    cases he
  · intro i hi
    cases hi
  · intro pre post w hw
    have : (fresh threads).trace = ([] : List (Ev Arg)) := rfl
    rw [this] at hw
    cases pre <;> cases hw
  · intro pre post i hw
    have : (fresh threads).trace = ([] : List (Ev Arg)) := rfl
    rw [this] at hw
    cases pre <;> cases hw

theorem inv_run {Arg R : Type} (handler : R → HandlerRun Arg)
    (hsh : ∀ r, Shaped (handler r)) (sched : List Tid) :
    ∀ s : State Arg R, Inv s → Inv (run handler s sched) := by
  induction sched with
  | nil => intro s hI; exact hI
  | cons t rest ih =>
    intro s hI
    show Inv (run handler ((step handler s t).getD s) rest)
    cases hst : step handler s t with
    | none => exact ih s hI
    | some s2 => exact ih s2 (inv_step handler s s2 t hsh hI (step_sound handler s s2 t hst).2)

theorem inv_reachable {Arg R : Type} (handler : R → HandlerRun Arg)
    (hsh : ∀ r, Shaped (handler r)) (s : State Arg R) (hr : Reachable handler s) : Inv s := by
  obtain ⟨threads, sched, hent, rfl⟩ := hr
  exact inv_run handler hsh sched _ (inv_fresh threads hent)

theorem shaped_call_then {Arg : Type} (r : CallResult) (a : Action Arg)
    (ha : a.isCallback = true) : Shaped (call_then r a finish) := by
  have hs : a.isSetComplete = false := by
    cases a <;> first | rfl | cases ha
  cases r
  · constructor
    · show (a :: [Action.set_complete, Action.notify_all]).countP Action.isSetComplete ≤ 1
      rw [List.countP_cons_of_neg _ _ (by simp [hs])]
      simp [Action.isSetComplete]
    · show cbFirst (a :: [Action.set_complete, Action.notify_all]) = true
      unfold cbFirst
      rw [if_neg (by simp [hs]), if_pos ha]
  · constructor
    · show [a].countP Action.isSetComplete ≤ 1
      rw [List.countP_cons_of_neg _ _ (by simp [hs])]
      simp [Action.isSetComplete]
    · show cbFirst [a] = true
      unfold cbFirst
      rw [if_neg (by simp [hs]), if_pos ha]

theorem shaped_tagged {Arg Other : Type} (cb : Callbacks Arg)
    (result : confirmation_callback_t Arg Other) : Shaped (rest_callback_tagged cb result) := by
  unfold rest_callback_tagged
  split
  · exact shaped_call_then _ _ rfl
  · split
    · exact ⟨Nat.zero_le _, rfl⟩
    · exact shaped_call_then _ _ rfl

theorem shaped_flat (h_success : http_error) (cb : Callbacks http_request_completion_t)
    (res : http_request_completion_t) : Shaped (rest_callback_flat h_success cb res) := by
  unfold rest_callback_flat
  split
  · exact shaped_call_then _ _ rfl
  · exact shaped_call_then _ _ rfl

theorem lookup_lt {α : Type} (l : List α) (t : Nat) (p : α) (h : l[t]? = some p) :
    t < l.length := by
  by_contra hge
  rw [List.getElem?_eq_none (by omega)] at h
  cases h

theorem set_lookup {α : Type} (l : List α) (t : Nat) (p q : α) (h : l[t]? = some p) :
    (l.set t q)[t]? = some q :=
  List.getElem?_set_self (lookup_lt l t p h)

theorem run_cons_some {Arg R : Type} (handler : R → HandlerRun Arg) (s s2 : State Arg R)
    (t : Tid) (rest : List Tid) (h : step handler s t = some s2) :
    run handler s (t :: rest) = run handler s2 rest := by
  show run handler ((step handler s t).getD s) rest = _
  rw [h]; rfl

theorem run_aborted {Arg R : Type} (handler : R → HandlerRun Arg) (sched : List Tid)
    (s : State Arg R) (h : s.aborted = true) : run handler s sched = s := by
  induction sched with
  | nil => rfl
  | cons t rest ih =>
    show run handler ((step handler s t).getD s) rest = s
    have : step handler s t = none := by
      unfold step
      rw [if_pos h]
    rw [this]
    exact ih

theorem wait_contract_of_shaped {Arg R : Type} (handler : R → HandlerRun Arg)
    (hsh : ∀ r, Shaped (handler r)) : WaitContract handler := by
  intro s hr
  have hI := inv_reachable handler hsh s hr
  refine ⟨?_, fun pre post w h => (hI.waits pre post w h).2, hI.order⟩
  intro t s2 hst htr
  obtain ⟨-, hS⟩ := step_sound handler s s2 t hst
  cases hS
  case wait_return hpc =>
    have hc := hI.sure t _ hpc rfl
    exact ⟨hc, hc⟩
  all_goals
    exfalso
    dsimp only at htr
    first
    | (have h2 := congrArg List.length htr
       simp at h2; done)
    | (have h2 := List.append_cancel_left htr
       cases h2; done)

theorem lock_held_of_shaped {Arg R : Type} (handler : R → HandlerRun Arg)
    (hsh : ∀ r, Shaped (handler r)) : LockHeldThroughInvoke handler := by
  intro s hr t pc hpc hin
  have hI := inv_reachable handler hsh s hr
  have hm : s.mutex = some t := by
    refine hI.mutex t pc hpc ?_
    cases pc <;> first | rfl | cases hin
  refine ⟨hm, ?_⟩
  intro u i r hu
  unfold step
  split
  · rfl
  · rw [hu]
    simp [hm]

theorem no_overlap_of_shaped {Arg R : Type} (handler : R → HandlerRun Arg)
    (hsh : ∀ r, Shaped (handler r)) : NoOverlap handler := by
  intro s hr u v p q hu hv hp hq
  obtain ⟨w, hw⟩ := (inv_reachable handler hsh s hr).unique
  rw [hw u p hu hp, hw v q hv hq]

/-- C1: on a bridge of either shape, in every execution from a fresh bridge,
`wait()` (the destructor is a call of it) returns only while `_complete` is true;
by then the handler of every `operator()` call that had cleared the flag has
written `_complete = true`; and a handler calls `_on_success` or `_on_error` before
it writes `_complete = true`. -/
theorem wait_returns_only_after_completion {Arg Other : Type} :
    (∀ cb : Callbacks Arg, WaitContract (@rest_callback_tagged Arg Other cb)) ∧
    (∀ (h_success : http_error) (cb : Callbacks http_request_completion_t),
      WaitContract (rest_callback_flat h_success cb)) :=
  ⟨fun cb => wait_contract_of_shaped _ (shaped_tagged cb),
   fun h_success cb => wait_contract_of_shaped _ (shaped_flat h_success cb)⟩

/-- Witness of C1: thread 0 calls `operator()`, the handler runs as thread 2, then
the `wait()` of thread 1 returns; before that return the handler of call 0 has
written the flag. -/
theorem wait_returns_only_after_completion_witness :
    Ev.handler 0 Action.set_complete ∈
      [Ev.flag_cleared 0, Ev.routine_called 0, Ev.invoke_returned 0,
       Ev.handler 0 (Action.on_success 7), Ev.handler 0 Action.set_complete,
       Ev.handler 0 Action.notify_all, Ev.handler_left 0 CallResult.returns] :=
  ((@wait_returns_only_after_completion Nat String).1 quiet_callbacks
      (run (rest_callback_tagged quiet_callbacks) invoke_and_wait
        [0, 0, 0, 0, 0, 2, 2, 2, 2, 2, 1, 1, 1])
      ⟨[.inv_start tagged_ok, .wait_start], [0, 0, 0, 0, 0, 2, 2, 2, 2, 2, 1, 1, 1],
        by decide, rfl⟩).2.1
    [Ev.flag_cleared 0, Ev.routine_called 0, Ev.invoke_returned 0,
     Ev.handler 0 (Action.on_success 7), Ev.handler 0 Action.set_complete,
     Ev.handler 0 Action.notify_all, Ev.handler_left 0 CallResult.returns]
    [] 1 (by decide) 0 (by decide)

/-- C7, as the claim states it, fails: in the state in which the `operator()` call
of thread 0 is about to call its routine, thread 0 owns `_mutex`. -/
theorem lock_is_held_at_the_call :
    at_call_state.threads[0]? = some (Pc.inv_call tagged_ok) ∧
    at_call_state.mutex = some 0 := by
  decide

/-- C7, amended: on a bridge of either shape, `operator()` owns `_mutex` from the
`scoped_lock` on line 192 until it returns, so also while it calls the routine; as
long as a thread is inside `operator()`, a handler run that has still to take the
lock cannot move. -/
theorem invoke_holds_lock_until_return {Arg Other : Type} :
    (∀ cb : Callbacks Arg, LockHeldThroughInvoke (@rest_callback_tagged Arg Other cb)) ∧
    (∀ (h_success : http_error) (cb : Callbacks http_request_completion_t),
      LockHeldThroughInvoke (rest_callback_flat h_success cb)) :=
  ⟨fun cb => lock_held_of_shaped _ (shaped_tagged cb),
   fun h_success cb => lock_held_of_shaped _ (shaped_flat h_success cb)⟩

/-- Witness of C7, amended: after thread 0 has called its routine and before it
returns, it owns `_mutex` and the handler run (thread 1) cannot move. -/
theorem invoke_holds_lock_until_return_witness :
    (run (rest_callback_tagged quiet_callbacks) (fresh [.inv_start tagged_ok])
        [0, 0, 0, 0]).mutex = some 0 ∧
    step (rest_callback_tagged quiet_callbacks)
      (run (rest_callback_tagged quiet_callbacks) (fresh [.inv_start tagged_ok])
        [0, 0, 0, 0]) 1 = none :=
  have h := (@invoke_holds_lock_until_return Nat String).1 quiet_callbacks
    (run (rest_callback_tagged quiet_callbacks) (fresh [.inv_start tagged_ok]) [0, 0, 0, 0])
    ⟨[.inv_start tagged_ok], [0, 0, 0, 0], by decide, rfl⟩ 0 Pc.inv_return (by decide) rfl
  ⟨h.1, h.2 1 0 tagged_ok (by decide)⟩

theorem step_inv_start {Arg R : Type} (handler : R → HandlerRun Arg) (s : State Arg R)
    (t : Tid) (r : R) (hab : s.aborted = false) (hpc : s.threads[t]? = some (.inv_start r))
    (hm : s.mutex = none) :
    step handler s t =
      some ⟨s.complete, some t, false, s.threads.set t (.inv_assert r), s.trace⟩ := by
  unfold step
  simp [hab, hpc, hm]

theorem step_wait_start {Arg R : Type} (handler : R → HandlerRun Arg) (s : State Arg R)
    (t : Tid) (hab : s.aborted = false) (hpc : s.threads[t]? = some .wait_start)
    (hm : s.mutex = none) :
    step handler s t = some ⟨s.complete, some t, false, s.threads.set t .wait_check, s.trace⟩ := by
  unfold step
  simp [hab, hpc, hm]

/-- C9: `wait()` called on a bridge whose `_complete` is true (as on every fresh
bridge) while nobody owns the lock takes the lock, finds the predicate true and
returns: in three steps of its own, through `wait_check` and `wait_return` and never
through `wait_blocked`, and `_complete` is still true. -/
theorem wait_returns_at_once {Arg R : Type} (handler : R → HandlerRun Arg)
    (s : State Arg R) (t : Tid) (hab : s.aborted = false)
    (hpc : s.threads[t]? = some .wait_start) (hm : s.mutex = none)
    (hc : s.complete = true) :
    (run handler s [t]).threads[t]? = some .wait_check ∧
    (run handler s [t, t]).threads[t]? = some .wait_return ∧
    run handler s [t, t, t] =
      ⟨true, none, false, s.threads.set t .done, s.trace ++ [.wait_returned t]⟩ := by
  have h1 := step_wait_start handler s t hab hpc hm
  have l1 : (s.threads.set t (Pc.wait_check : Pc Arg R))[t]? = some .wait_check :=
    set_lookup _ _ _ _ hpc
  have h2 : step handler ⟨s.complete, some t, false, s.threads.set t .wait_check, s.trace⟩ t
      = some ⟨s.complete, some t, false, s.threads.set t .wait_return, s.trace⟩ := by
    unfold step
    simp [l1, hc]
  have l2 : (s.threads.set t (Pc.wait_return : Pc Arg R))[t]? = some .wait_return :=
    set_lookup _ _ _ _ hpc
  have h3 : step handler ⟨s.complete, some t, false, s.threads.set t .wait_return, s.trace⟩ t
      = some ⟨true, none, false, s.threads.set t .done, s.trace ++ [.wait_returned t]⟩ := by
    unfold step
    simp [l2, hc]
  refine ⟨?_, ?_, ?_⟩
  · rw [run_cons_some _ _ _ _ _ h1]; exact l1
  · rw [run_cons_some _ _ _ _ _ h1, run_cons_some _ _ _ _ _ h2]; exact l2
  · rw [run_cons_some _ _ _ _ _ h1, run_cons_some _ _ _ _ _ h2, run_cons_some _ _ _ _ _ h3]
    rfl

/-- Witness of C9: a fresh bridge and one thread that calls `wait()`. -/
theorem wait_returns_at_once_witness :
    (run (rest_callback_tagged quiet_callbacks)
        (fresh [(.wait_start : Pc Nat (confirmation_callback_t Nat String))]) [0]).threads[0]?
      = some .wait_check ∧
    (run (rest_callback_tagged quiet_callbacks)
        (fresh [(.wait_start : Pc Nat (confirmation_callback_t Nat String))]) [0, 0]).threads[0]?
      = some .wait_return ∧
    run (rest_callback_tagged quiet_callbacks)
        (fresh [(.wait_start : Pc Nat (confirmation_callback_t Nat String))]) [0, 0, 0]
      = ⟨true, none, false, [.done], [.wait_returned 0]⟩ :=
  wait_returns_at_once (rest_callback_tagged quiet_callbacks)
    (fresh [(.wait_start : Pc Nat (confirmation_callback_t Nat String))]) 0 rfl rfl rfl rfl

/-- C6: an `operator()` call that finds nobody owning the lock: when `_complete` is
false it takes the lock, its `assert` fails, and nothing happens any more, so the
routine is not called; when `_complete` is true it writes `_complete = false`, calls
the routine once (which starts one handler run) and returns. And on a bridge of
either shape at most one thread at a time carries an operation to its flag write. -/
theorem invoke_requires_idle {Arg Other : Type} :
    (∀ (R : Type) (handler : R → HandlerRun Arg) (s : State Arg R) (t : Tid) (r : R),
      s.aborted = false → s.threads[t]? = some (.inv_start r) → s.mutex = none →
      (s.complete = false →
        (∀ sched : List Tid, run handler s (t :: t :: sched) =
          ⟨false, some t, true, s.threads.set t (.inv_assert r),
            s.trace ++ [.assert_failed t]⟩)) ∧
      (s.complete = true →
        run handler s [t, t, t, t, t] =
          ⟨false, none, false, s.threads.set t .done ++ [.cb_start t r],
            s.trace ++ [.flag_cleared t, .routine_called t, .invoke_returned t]⟩)) ∧
    (∀ cb : Callbacks Arg, NoOverlap (@rest_callback_tagged Arg Other cb)) ∧
    (∀ (h_success : http_error) (cb : Callbacks http_request_completion_t),
      NoOverlap (rest_callback_flat h_success cb)) := by
  refine ⟨?_, fun cb => no_overlap_of_shaped _ (shaped_tagged cb),
    fun h_success cb => no_overlap_of_shaped _ (shaped_flat h_success cb)⟩
  intro R handler s t r hab hpc hm
  have hlt : t < s.threads.length := lookup_lt _ _ _ hpc
  have h1 := step_inv_start handler s t r hab hpc hm
  have l1 : (s.threads.set t (Pc.inv_assert r : Pc Arg R))[t]? = some (.inv_assert r) :=
    set_lookup _ _ _ _ hpc
  constructor
  · intro hc sched
    have h2 : step handler ⟨s.complete, some t, false, s.threads.set t (.inv_assert r), s.trace⟩ t
        = some ⟨false, some t, true, s.threads.set t (.inv_assert r),
            s.trace ++ [.assert_failed t]⟩ := by
      unfold step
      simp [l1, hc]
    rw [run_cons_some _ _ _ _ _ h1, run_cons_some _ _ _ _ _ h2]
    exact run_aborted handler sched _ rfl
  · intro hc
    have h2 : step handler ⟨s.complete, some t, false, s.threads.set t (.inv_assert r), s.trace⟩ t
        = some ⟨true, some t, false, s.threads.set t (.inv_clear r), s.trace⟩ := by
      unfold step
      simp [l1, hc]
    have l2 : (s.threads.set t (Pc.inv_clear r : Pc Arg R))[t]? = some (.inv_clear r) :=
      set_lookup _ _ _ _ hpc
    have h3 : step handler ⟨true, some t, false, s.threads.set t (.inv_clear r), s.trace⟩ t
        = some ⟨false, some t, false, s.threads.set t (.inv_call r),
            s.trace ++ [.flag_cleared t]⟩ := by
      unfold step
      simp [l2]
    have l3 : (s.threads.set t (Pc.inv_call r : Pc Arg R))[t]? = some (.inv_call r) :=
      set_lookup _ _ _ _ hpc
    have h4 : step handler ⟨false, some t, false, s.threads.set t (.inv_call r),
          s.trace ++ [.flag_cleared t]⟩ t
        = some ⟨false, some t, false, s.threads.set t .inv_return ++ [.cb_start t r],
            s.trace ++ [.flag_cleared t, .routine_called t]⟩ := by
      unfold step
      simp [l3]
    have l4 : (s.threads.set t (Pc.inv_return : Pc Arg R) ++ [.cb_start t r])[t]?
        = some .inv_return := by
      rw [List.getElem?_append_left (by simpa using hlt)]
      exact set_lookup _ _ _ _ hpc
    have h5 : step handler ⟨false, some t, false,
          s.threads.set t .inv_return ++ [.cb_start t r],
          s.trace ++ [.flag_cleared t, .routine_called t]⟩ t
        = some ⟨false, none, false, s.threads.set t .done ++ [.cb_start t r],
            s.trace ++ [.flag_cleared t, .routine_called t, .invoke_returned t]⟩ := by
      unfold step
      simp [l4, List.set_append_left, hlt]
    rw [run_cons_some _ _ _ _ _ h1, run_cons_some _ _ _ _ _ h2, run_cons_some _ _ _ _ _ h3,
      run_cons_some _ _ _ _ _ h4, run_cons_some _ _ _ _ _ h5]
    rfl

/-- Witness of C6: on a fresh bridge the `operator()` call of thread 0 goes
through; the `operator()` call of thread 1 that follows it while the operation of
thread 0 is outstanding fails its `assert`. -/
theorem invoke_requires_idle_witness :
    run (rest_callback_tagged quiet_callbacks)
        (fresh [.inv_start tagged_ok, .inv_start tagged_err]) [0, 0, 0, 0, 0] =
      ⟨false, none, false, [.done, .inv_start tagged_err, .cb_start 0 tagged_ok],
        [.flag_cleared 0, .routine_called 0, .invoke_returned 0]⟩ ∧
    ∀ sched : List Tid,
      run (rest_callback_tagged quiet_callbacks)
        ⟨false, none, false, [.done, .inv_start tagged_err, .cb_start 0 tagged_ok],
          [.flag_cleared 0, .routine_called 0, .invoke_returned 0]⟩ (1 :: 1 :: sched) =
      ⟨false, some 1, true, [.done, .inv_assert tagged_err, .cb_start 0 tagged_ok],
        [.flag_cleared 0, .routine_called 0, .invoke_returned 0, .assert_failed 1]⟩ :=
  ⟨((@invoke_requires_idle Nat String).1 _ (rest_callback_tagged quiet_callbacks)
      (fresh [.inv_start tagged_ok, .inv_start tagged_err]) 0 tagged_ok rfl rfl rfl).2 rfl,
   ((@invoke_requires_idle Nat String).1 _ (rest_callback_tagged quiet_callbacks)
      ⟨false, none, false, [.done, .inv_start tagged_err, .cb_start 0 tagged_ok],
        [.flag_cleared 0, .routine_called 0, .invoke_returned 0]⟩ 1 tagged_err
      rfl rfl rfl).1 rfl⟩

end B12
